import Mathlib

/-!
Verification of the static-site generation pipeline in
`src/lib/builder/generator.js` (class `Generator`, method `generate`).

Shallow embedding notes:
* JavaScript values that flow through the route merger (payloads, in-band
  errors) are modelled by `JSVal`, with JS truthiness made explicit; the
  source expression `route.payload || null` becomes `orNull`.
* The source stores routes in a plain object `routeMap` keyed by the route
  string and reads it back with `_.values(routeMap)`.  For string keys that
  are not array indices (all route paths here begin with `/`), JS objects
  enumerate keys in insertion order and assignment to an existing key keeps
  its position, so `routeMap` is modelled as an insertion-ordered
  association list with in-place update (`upsert`).
* The per-route pipeline (render, optional minify, write) is a pure
  function `processRoute` from the render outcome to the list of pushed
  error records and the optionally written file content.
* The batch loop `while (routes.length) { await Promise.all(routes.splice(0, 500)...) }`
  is modelled by `batches` / `generateRun`.  Error records of distinct
  routes are listed in route order; the claims below only ever inspect the
  records of a single route, so the cross-route interleaving that
  `Promise.all` allows is irrelevant to them.
* `path.join` (POSIX separator) is modelled for dot-free segments:
  arguments are interleaved with `/` and runs of `/` are collapsed
  (`collapseAux` / `normSlashes`), which is exactly Node's normalization on
  inputs without `.` or `..` segments.
-/

/-- Model of the JavaScript values relevant to the generator: payloads and
error values, with explicit truthiness. -/
inductive JSVal where
  | vnull
  | vundefined
  | vbool (b : Bool)
  | vnum (n : Int)
  | vstr (s : String)
deriving DecidableEq, Repr

/-- JS truthiness of a `JSVal`. -/
def JSVal.truthy : JSVal → Bool
  | .vnull => false
  | .vundefined => false
  | .vbool b => b
  | .vnum n => n != 0
  | .vstr s => s != ""

/-- Model of the JS expression `v || null`. -/
def orNull (v : JSVal) : JSVal :=
  if v.truthy then v else .vnull

/-- One entry of the merged work list: `{ route, payload }` as built by
`decorateWithPayloads`. -/
structure RouteSpec where
  route : String
  payload : JSVal
deriving DecidableEq, Repr

/-- One entry of `generate.routes` after resolution: either a bare path
string or an object `{route, payload}` (`payload` may be `vundefined` when
the key is absent). -/
inductive DynItem where
  | str (path : String)
  | obj (route : String) (payload : JSVal)
deriving DecidableEq, Repr

/-- The path the source extracts: `_.isString(route) ? route : route.route`. -/
def DynItem.path : DynItem → String
  | .str s => s
  | .obj r _ => r

/-- The payload the source stores: `route.payload || null`.  For a bare
string, `route.payload` is `undefined`, hence `null`. -/
def DynItem.payloadOrNull : DynItem → JSVal
  | .str _ => .vnull
  | .obj _ p => orNull p

/-- Insertion-ordered association list standing for the JS object
`routeMap`; keys are route paths. -/
abbrev RouteMap := List (String × RouteSpec)

/-- Assignment `routeMap[k] = v`: overwrite in place when the key exists,
append otherwise (JS string-key insertion-order semantics). -/
def upsert (m : RouteMap) (k : String) (v : RouteSpec) : RouteMap :=
  match m with
  | [] => [(k, v)]
  | (k', v') :: rest =>
      if k' = k then (k', v) :: rest else (k', v') :: upsert rest k v

/-- The `decorateWithPayloads` closure from the source: fill `routeMap`
from the flattened static routes with `payload: null`, then upsert every
resolved `generate.routes` item, then take `_.values(routeMap)`. -/
def decorateWithPayloads (generateRoutes : List DynItem) (routes : List String) : List RouteSpec :=
  let m1 := routes.foldl (fun m route => upsert m route ⟨route, .vnull⟩) []
  let m2 := generateRoutes.foldl (fun m item => upsert m item.path ⟨item.path, item.payloadOrNull⟩) m1
  m2.map Prod.snd

/-- First-occurrence deduplication with an accumulator of already-seen
keys; specification-side description of the merged key order. -/
def dedupFirstAux (seen : List String) : List String → List String
  | [] => []
  | x :: xs =>
      if x ∈ seen then dedupFirstAux seen xs else x :: dedupFirstAux (x :: seen) xs

/-- Keys in order of first insertion. -/
def dedupFirst (l : List String) : List String :=
  dedupFirstAux [] l

/-- Payload the merge ends up storing for a path: the last dynamic item
with that path decides (through `payloadOrNull`), otherwise the static
default `null`. -/
def lastPayload (dyn : List DynItem) (p : String) : JSVal :=
  match (dyn.filter (fun it => it.path = p)).getLast? with
  | some it => it.payloadOrNull
  | none => .vnull

/-- Keys of the route map, in stored order. -/
def keysOf (m : RouteMap) : List String :=
  m.map Prod.fst

/-- Lookup by key in the modelled JS object. -/
def lookupMap (k : String) : RouteMap → Option RouteSpec
  | [] => none
  | (k', v) :: rest => if k' = k then some v else lookupMap k rest

/-- Folding a list of key/value pairs into the map by assignment. -/
def insertAll (m : RouteMap) (L : List (String × RouteSpec)) : RouteMap :=
  L.foldl (fun m p => upsert m p.1 p.2) m

lemma keysOf_upsert (m : RouteMap) (k : String) (v : RouteSpec) :
    keysOf (upsert m k v) = if k ∈ keysOf m then keysOf m else keysOf m ++ [k] := by
  induction m with
  | nil => simp [upsert, keysOf]
  | cons p rest ih =>
      obtain ⟨k', v'⟩ := p
      by_cases h : k' = k
      · simp [upsert, keysOf, h]
      · simp only [upsert, if_neg h, keysOf, List.map_cons] at ih ⊢
        rw [ih]
        by_cases hk : k ∈ List.map Prod.fst rest
        · simp [hk, Ne.symm h]
        · simp [hk, Ne.symm h]

lemma nodup_keysOf_upsert (m : RouteMap) (k : String) (v : RouteSpec)
    (h : (keysOf m).Nodup) : (keysOf (upsert m k v)).Nodup := by
  rw [keysOf_upsert]
  by_cases hk : k ∈ keysOf m
  · simpa [hk]
  · simpa [hk] using List.Nodup.append h (List.nodup_singleton k) (by simpa using hk)

lemma routeField_upsert (m : RouteMap) (k : String) (v : RouteSpec)
    (hm : ∀ p ∈ m, (Prod.snd p).route = p.1) (hv : v.route = k) :
    ∀ p ∈ upsert m k v, (Prod.snd p).route = p.1 := by
  induction m with
  | nil =>
      intro p hp
      simp only [upsert, List.mem_singleton] at hp
      subst hp; simpa using hv
  | cons q rest ih =>
      obtain ⟨k', v'⟩ := q
      by_cases h : k' = k
      · intro p hp
        rw [upsert, if_pos h] at hp
        rcases List.mem_cons.mp hp with hp | hp
        · subst hp; simpa [h] using hv
        · exact hm p (List.mem_cons_of_mem _ hp)
      · intro p hp
        rw [upsert, if_neg h] at hp
        rcases List.mem_cons.mp hp with hp | hp
        · subst hp; exact hm ⟨k', v'⟩ (List.mem_cons_self _ _)
        · exact ih (fun q hq => hm q (List.mem_cons_of_mem _ hq)) p hp

lemma lookupMap_upsert_self (m : RouteMap) (k : String) (v : RouteSpec) :
    lookupMap k (upsert m k v) = some v := by
  induction m with
  | nil => simp [upsert, lookupMap]
  | cons q rest ih =>
      obtain ⟨k', v'⟩ := q
      by_cases h : k' = k
      · simp [upsert, lookupMap, h]
      · simp [upsert, lookupMap, h, ih]

lemma lookupMap_upsert_ne (m : RouteMap) (k k' : String) (v : RouteSpec)
    (h : k' ≠ k) : lookupMap k' (upsert m k v) = lookupMap k' m := by
  induction m with
  | nil => simp [upsert, lookupMap, Ne.symm h]
  | cons q rest ih =>
      obtain ⟨k₀, v₀⟩ := q
      by_cases h₀ : k₀ = k
      · subst h₀
        simp [upsert, lookupMap, Ne.symm h]
      · simp [upsert, lookupMap, h₀, ih]

lemma lookupMap_eq_of_mem (m : RouteMap) (p : String × RouteSpec)
    (hnd : (keysOf m).Nodup) (hp : p ∈ m) : lookupMap p.1 m = some p.2 := by
  induction m with
  | nil => cases hp
  | cons q rest ih =>
      obtain ⟨k', v'⟩ := q
      have hnd' : k' ∉ List.map Prod.fst rest ∧ (List.map Prod.fst rest).Nodup := by
        have := List.nodup_cons.mp (show ((k' :: List.map Prod.fst rest)).Nodup by
          simpa [keysOf] using hnd)
        exact this
      rcases List.mem_cons.mp hp with hp | hp
      · subst hp; simp [lookupMap]
      · have hk : k' ≠ p.1 := by
          intro h
          apply hnd'.1
          rw [h]
          exact List.mem_map_of_mem Prod.fst hp
        have := ih (by simpa [keysOf] using hnd'.2) hp
        simpa [lookupMap, hk]

lemma insertAll_concat (m : RouteMap) (L : List (String × RouteSpec)) (p : String × RouteSpec) :
    insertAll m (L ++ [p]) = upsert (insertAll m L) p.1 p.2 := by
  simp [insertAll, List.foldl_append]

lemma mem_dedupFirstAux (seen : List String) (xs : List String) (y : String) :
    y ∈ dedupFirstAux seen xs ↔ y ∉ seen ∧ y ∈ xs := by
  induction xs generalizing seen with
  | nil => simp [dedupFirstAux]
  | cons x xs ih =>
      by_cases hx : x ∈ seen
      · rw [dedupFirstAux, if_pos hx, ih]
        constructor
        · rintro ⟨h1, h2⟩; exact ⟨h1, List.mem_cons_of_mem _ h2⟩
        · rintro ⟨h1, h2⟩
          rcases List.mem_cons.mp h2 with h2 | h2
          · exact absurd (h2 ▸ hx) h1
          · exact ⟨h1, h2⟩
      · rw [dedupFirstAux, if_neg hx]
        constructor
        · intro hmem
          rcases List.mem_cons.mp hmem with rfl | hmem
          · exact ⟨hx, List.mem_cons_self _ _⟩
          · obtain ⟨h1, h2⟩ := (ih (x :: seen)).mp hmem
            exact ⟨fun hs => h1 (List.mem_cons_of_mem _ hs), List.mem_cons_of_mem _ h2⟩
        · rintro ⟨h1, h2⟩
          rcases List.mem_cons.mp h2 with rfl | h2
          · exact List.mem_cons_self _ _
          · by_cases hxy : y = x
            · exact hxy ▸ List.mem_cons_self _ _
            · refine List.mem_cons_of_mem _ ((ih (x :: seen)).mpr ⟨?_, h2⟩)
              intro hs
              rcases List.mem_cons.mp hs with hs | hs
              · exact hxy hs
              · exact h1 hs

lemma dedupFirstAux_concat (seen : List String) (xs : List String) (x : String) :
    dedupFirstAux seen (xs ++ [x]) =
      dedupFirstAux seen xs ++ (if x ∈ seen ∨ x ∈ xs then [] else [x]) := by
  induction xs generalizing seen with
  | nil => by_cases h : x ∈ seen <;> simp [dedupFirstAux, h]
  | cons y xs ih =>
      rw [List.cons_append, dedupFirstAux, dedupFirstAux]
      by_cases hy : y ∈ seen
      · rw [if_pos hy, if_pos hy, ih]
        by_cases hxs : x ∈ seen
        · simp [hxs]
        · by_cases hxx : x ∈ xs
          · simp [hxs, hxx]
          · by_cases hxy : x = y
            · exact absurd (hxy ▸ hy) hxs
            · simp [hxs, hxx, hxy]
      · rw [if_neg hy, if_neg hy, ih]
        by_cases hxs : x ∈ seen
        · simp [hxs]
        · by_cases hxx : x ∈ xs
          · simp [hxs, hxx]
          · by_cases hxy : x = y
            · simp [hxs, hxx, hxy]
            · simp [hxs, hxx, hxy]

lemma mem_of_getLast?_eq {α : Type} (l : List α) (a : α) (h : l.getLast? = some a) :
    a ∈ l := by
  obtain ⟨hne, rfl⟩ := List.mem_getLast?_eq_getLast (show a ∈ l.getLast? by simp [h, Option.mem_def])
  exact List.getLast_mem hne

lemma keysOf_insertAll (L : List (String × RouteSpec)) :
    keysOf (insertAll [] L) = dedupFirst (L.map Prod.fst) := by
  induction L using List.reverseRecOn with
  | nil => rfl
  | append_singleton L p ih =>
      rw [insertAll_concat, keysOf_upsert, ih, List.map_append, List.map_singleton]
      simp only [dedupFirst]
      rw [dedupFirstAux_concat]
      by_cases h : p.1 ∈ dedupFirstAux [] (List.map Prod.fst L)
      · have hmem : p.1 ∈ List.map Prod.fst L := ((mem_dedupFirstAux [] _ _).mp h).2
        simp [h, hmem]
      · have hmem : p.1 ∉ List.map Prod.fst L := by
          intro hm
          exact h ((mem_dedupFirstAux [] _ _).mpr ⟨by simp, hm⟩)
        simp [h, hmem]

lemma nodup_keysOf_insertAll (L : List (String × RouteSpec)) :
    (keysOf (insertAll [] L)).Nodup := by
  induction L using List.reverseRecOn with
  | nil => simp [insertAll, keysOf]
  | append_singleton L p ih =>
      rw [insertAll_concat]
      exact nodup_keysOf_upsert _ _ _ ih

lemma routeField_insertAll (L : List (String × RouteSpec))
    (hL : ∀ q ∈ L, (Prod.snd q).route = q.1) :
    ∀ p ∈ insertAll [] L, (Prod.snd p).route = p.1 := by
  induction L using List.reverseRecOn with
  | nil => intro p hp; cases hp
  | append_singleton L q ih =>
      rw [insertAll_concat]
      refine routeField_upsert _ _ _ (ih fun r hr => hL r (List.mem_append_left _ hr)) ?_
      exact hL q (List.mem_append_right _ (List.mem_singleton_self _))

lemma lookupMap_insertAll (L : List (String × RouteSpec)) (k : String) :
    lookupMap k (insertAll [] L) =
      ((L.filter (fun p => p.1 = k)).getLast?).map Prod.snd := by
  induction L using List.reverseRecOn with
  | nil => rfl
  | append_singleton L p ih =>
      rw [insertAll_concat, List.filter_append]
      by_cases h : p.1 = k
      · rw [h, lookupMap_upsert_self]
        simp [h]
      · rw [lookupMap_upsert_ne _ _ _ _ (Ne.symm h), ih]
        simp [h]

/-- The static pass of `decorateWithPayloads` as key/value pairs. -/
def staticPairs (st : List String) : List (String × RouteSpec) :=
  st.map (fun r => (r, ⟨r, .vnull⟩))

/-- The dynamic pass of `decorateWithPayloads` as key/value pairs. -/
def dynPairs (dyn : List DynItem) : List (String × RouteSpec) :=
  dyn.map (fun it => (it.path, ⟨it.path, it.payloadOrNull⟩))

lemma decorate_eq_insertAll (dyn : List DynItem) (st : List String) :
    decorateWithPayloads dyn st = (insertAll [] (staticPairs st ++ dynPairs dyn)).map Prod.snd := by
  simp only [decorateWithPayloads, insertAll, staticPairs, dynPairs, List.foldl_append,
    List.foldl_map]

lemma pairs_routeField (dyn : List DynItem) (st : List String) :
    ∀ q ∈ staticPairs st ++ dynPairs dyn, (Prod.snd q).route = q.1 := by
  intro q hq
  rcases List.mem_append.mp hq with hq | hq
  · obtain ⟨r, _, rfl⟩ := List.mem_map.mp hq
    rfl
  · obtain ⟨it, _, rfl⟩ := List.mem_map.mp hq
    rfl

/-- Route order produced by the merge: first-insertion order over the
static pass followed by the dynamic pass. -/
lemma decorate_routes (dyn : List DynItem) (st : List String) :
    (decorateWithPayloads dyn st).map RouteSpec.route = dedupFirst (st ++ dyn.map DynItem.path) := by
  rw [decorate_eq_insertAll, List.map_map]
  have h1 : (insertAll [] (staticPairs st ++ dynPairs dyn)).map (RouteSpec.route ∘ Prod.snd) =
      (insertAll [] (staticPairs st ++ dynPairs dyn)).map Prod.fst :=
    List.map_congr_left (fun p hp =>
      routeField_insertAll _ (pairs_routeField dyn st) p hp)
  rw [h1]
  have h2 : keysOf (insertAll [] (staticPairs st ++ dynPairs dyn)) =
      dedupFirst ((staticPairs st ++ dynPairs dyn).map Prod.fst) := keysOf_insertAll _
  rw [keysOf] at h2
  rw [h2]
  congr 1
  simp [staticPairs, dynPairs, List.map_map, Function.comp_def]

/-- Route paths are unique in the merged work list. -/
lemma decorate_nodup (dyn : List DynItem) (st : List String) :
    ((decorateWithPayloads dyn st).map RouteSpec.route).Nodup := by
  rw [decorate_eq_insertAll, List.map_map]
  have h1 : (insertAll [] (staticPairs st ++ dynPairs dyn)).map (RouteSpec.route ∘ Prod.snd) =
      (insertAll [] (staticPairs st ++ dynPairs dyn)).map Prod.fst :=
    List.map_congr_left (fun p hp =>
      routeField_insertAll _ (pairs_routeField dyn st) p hp)
  rw [h1]
  exact nodup_keysOf_insertAll _

/-- Payload stored for each merged route: the last dynamic item with that
path decides (through `payload || null`), otherwise the static `null`. -/
lemma decorate_payload (dyn : List DynItem) (st : List String) :
    ∀ r ∈ decorateWithPayloads dyn st, r.payload = lastPayload dyn r.route := by
  intro r hr
  rw [decorate_eq_insertAll] at hr
  obtain ⟨p, hp, rfl⟩ := List.mem_map.mp hr
  have hfield : (Prod.snd p).route = p.1 :=
    routeField_insertAll _ (pairs_routeField dyn st) p hp
  have hlook := lookupMap_eq_of_mem _ p (nodup_keysOf_insertAll _) hp
  rw [lookupMap_insertAll, List.filter_append] at hlook
  have hdynfil : (dynPairs dyn).filter (fun q => q.1 = p.1) =
      (dyn.filter (fun it => it.path = p.1)).map (fun it => (it.path, (⟨it.path, it.payloadOrNull⟩ : RouteSpec))) := by
    rw [dynPairs, List.filter_map]
    rfl
  rw [hfield, lastPayload]
  by_cases hdyn : dyn.filter (fun it => it.path = p.1) = []
  · rw [hdyn]
    rw [hdynfil, hdyn] at hlook
    simp only [List.map_nil, List.append_nil] at hlook
    obtain ⟨q, hq1, hq2⟩ := Option.map_eq_some'.mp hlook
    have hqmem : q ∈ (staticPairs st).filter (fun q => q.1 = p.1) := mem_of_getLast?_eq _ _ hq1
    have hqst : q ∈ staticPairs st := List.mem_of_mem_filter hqmem
    obtain ⟨rr, _, rfl⟩ := List.mem_map.mp hqst
    show (Prod.snd p).payload = JSVal.vnull
    rw [← hq2]
  · have hne : (dyn.filter (fun it => it.path = p.1)).map
        (fun it => (it.path, (⟨it.path, it.payloadOrNull⟩ : RouteSpec))) ≠ [] := by
      simpa using hdyn
    rw [hdynfil, List.getLast?_append_of_ne_nil _ hne, List.getLast?_map] at hlook
    obtain ⟨it, hit⟩ := Option.ne_none_iff_exists'.mp
      (by rw [← List.getLast?_eq_none_iff] at hdyn; exact hdyn)
    rw [hit] at hlook
    simp only [Option.map_some'] at hlook
    have h2 : p.2 = (⟨it.path, it.payloadOrNull⟩ : RouteSpec) := (Option.some.inj hlook).symm
    rw [hit]
    show (Prod.snd p).payload = it.payloadOrNull
    rw [h2]

example : decorateWithPayloads [] ["/"] = [⟨"/", .vnull⟩] := by decide

example :
    decorateWithPayloads [.obj "/b" (.vnum 1), .obj "/c" (.vnum 2)] ["/a", "/b"] =
      [⟨"/a", .vnull⟩, ⟨"/b", .vnum 1⟩, ⟨"/c", .vnum 2⟩] := by decide

example :
    decorateWithPayloads [.obj "/a" (.vbool false)] ["/a"] = [⟨"/a", .vnull⟩] := by decide

/-- Kind tag of a pushed error record: the source's `type` field, either
`'handled'` or `'unhandled'`. -/
inductive FailureKind where
  | handled
  | unhandled
deriving DecidableEq, Repr

/-- A JS error value; only its message is relevant to the claims. -/
structure JSError where
  message : String
deriving DecidableEq, Repr

/-- One element pushed onto the `errors` array of `generate`. -/
structure FailureRecord where
  type : FailureKind
  route : String
  error : JSError
deriving DecidableEq, Repr

/-- Outcome of `await this.nuxt.renderer.renderRoute(...)`: either the
promise resolves with `{ html, error }` (`error` is the in-band error,
`some` when truthy) or it rejects. -/
inductive RenderResult where
  | resolved (html : String) (error : Option JSError)
  | rejected (err : JSError)
deriving DecidableEq, Repr

/-- Message of the wrapping error built when `minify` throws:
`` `HTML minification failed. Make sure the route generates valid HTML. Failed HTML:\n ${html}` ``. -/
def minifyFailMsg (html : String) : String :=
  "HTML minification failed. Make sure the route generates valid HTML. Failed HTML:\n " ++ html

/-- The per-route body of the batch loop, from the render outcome to the
list of records pushed onto `errors` (in push order) and the content
written for the route (`none` when the route's file is not written).
Translated statement by statement from `generate`: a render rejection
returns early; an in-band error is recorded and processing continues; a
`minify` throw is recorded but does NOT return, so the un-minified `html`
still reaches `writeFile`. -/
def processRoute (render : RenderResult) (minifyOpt : Option (String → Except JSError String))
    (route : String) : List FailureRecord × Option String :=
  match render with
  | .rejected err => ([⟨.unhandled, route, err⟩], none)
  | .resolved html inband =>
      let errs := match inband with
        | some e => [⟨.handled, route, e⟩]
        | none => []
      match minifyOpt with
      | none => (errs, some html)
      | some mf =>
          match mf html with
          | .ok h => (errs, some h)
          | .error _ => (errs ++ [⟨.unhandled, route, ⟨minifyFailMsg html⟩⟩], some html)

/-- One route's processing inside a batch, as a function of the route spec:
the renderer is invoked with the route path and its payload. -/
def routeResult (renderer : String → JSVal → RenderResult)
    (minifyOpt : Option (String → Except JSError String)) (rs : RouteSpec) :
    List FailureRecord × Option String :=
  processRoute (renderer rs.route rs.payload) minifyOpt rs.route

/-- Successive slices of `routes.splice(0, k)` taken by the batch loop
`while (routes.length) ...`; for `0 < k` the slices have size `k` except,
possibly, the last. -/
def batches {α : Type} (k : Nat) : List α → List (List α)
  | [] => []
  | x :: xs => (x :: xs.take (k - 1)) :: batches k (xs.drop (k - 1))
termination_by l => l.length
decreasing_by
  simp only [List.length_drop, List.length_cons]
  omega

/-- The batch size hard-coded in the source (`routes.splice(0, 500)`). -/
def batchSize : Nat := 500

/-- The whole batch loop: every batch maps each member through its
per-route processing; the run accumulates the pushed error records and the
`(route, content)` pairs that reach `writeFile`.  Records of distinct
routes are listed in route order (the claims only inspect one route's
records at a time, so the interleaving freedom of `Promise.all` does not
matter). -/
def generateRun (renderer : String → JSVal → RenderResult)
    (minifyOpt : Option (String → Except JSError String)) (k : Nat)
    (routes : List RouteSpec) : List FailureRecord × List (String × String) :=
  let per := (batches k routes).flatMap (fun b => b.map (fun rs => (rs, routeResult renderer minifyOpt rs)))
  (per.flatMap (fun p => p.2.1),
   per.filterMap (fun p => (p.2.2).map (fun html => (p.1.route, html))))

lemma batches_cons (k : Nat) (x : α) (xs : List α) :
    batches k (x :: xs) = (x :: xs.take (k - 1)) :: batches k (xs.drop (k - 1)) := by
  rw [batches]

lemma batches_flatten {α : Type} (k : Nat) (l : List α) :
    (batches k l).flatten = l := by
  suffices H : ∀ (n : Nat) (l : List α), l.length = n → (batches k l).flatten = l from
    H l.length l rfl
  intro n
  induction n using Nat.strong_induction_on with
  | _ n ih =>
      intro l hn
      cases l with
      | nil => rw [batches]; rfl
      | cons x xs =>
          rw [batches_cons, List.flatten_cons]
          have hlen : (xs.drop (k - 1)).length < n := by
            rw [← hn]
            simp only [List.length_drop, List.length_cons]
            omega
          rw [ih _ hlen _ rfl]
          rw [List.cons_append, List.take_append_drop]

lemma batches_length {α : Type} (k : Nat) (l : List α) (hk : 0 < k) :
    (batches k l).length = (l.length + k - 1) / k := by
  suffices H : ∀ (n : Nat) (l : List α), l.length = n → (batches k l).length = (l.length + k - 1) / k from
    H l.length l rfl
  intro n
  induction n using Nat.strong_induction_on with
  | _ n ih =>
      intro l hn
      cases l with
      | nil =>
          rw [batches]
          simp only [List.length_nil]
          exact (Nat.div_eq_of_lt (by omega)).symm
      | cons x xs =>
          rw [batches_cons, List.length_cons]
          have hlen : (xs.drop (k - 1)).length < n := by
            rw [← hn]
            simp only [List.length_drop, List.length_cons]
            omega
          rw [ih _ hlen _ rfl]
          simp only [List.length_drop, List.length_cons] at hn ⊢
          rcases Nat.lt_or_ge xs.length (k - 1) with hlt | hge
          · have h1 : xs.length - (k - 1) = 0 := by omega
            rw [h1, Nat.div_eq_of_lt (show 0 + k - 1 < k by omega),
              show xs.length + 1 + k - 1 = xs.length + k from by omega,
              Nat.add_div_right _ hk, Nat.div_eq_of_lt (show xs.length < k by omega)]
          · rw [show xs.length - (k - 1) + k - 1 = xs.length from by omega,
              show xs.length + 1 + k - 1 = xs.length + k from by omega,
              Nat.add_div_right _ hk]

lemma flatMap_batches {α β : Type} (k : Nat) (l : List α) (f : α → β) :
    (batches k l).flatMap (fun b => b.map f) = l.map f := by
  rw [List.flatMap_def, ← List.map_flatten, batches_flatten]

lemma generateRun_errors (renderer : String → JSVal → RenderResult)
    (minifyOpt : Option (String → Except JSError String)) (k : Nat)
    (routes : List RouteSpec) :
    (generateRun renderer minifyOpt k routes).1 =
      routes.flatMap (fun rs => (routeResult renderer minifyOpt rs).1) := by
  unfold generateRun
  rw [flatMap_batches]
  simp only [List.flatMap_map]

lemma generateRun_writes (renderer : String → JSVal → RenderResult)
    (minifyOpt : Option (String → Except JSError String)) (k : Nat)
    (routes : List RouteSpec) :
    (generateRun renderer minifyOpt k routes).2 =
      routes.filterMap (fun rs => ((routeResult renderer minifyOpt rs).2).map (fun html => (rs.route, html))) := by
  unfold generateRun
  rw [flatMap_batches]
  simp only [List.filterMap_map]
  rfl

lemma processRoute_route (render : RenderResult) (minifyOpt : Option (String → Except JSError String))
    (route : String) : ∀ e ∈ (processRoute render minifyOpt route).1, e.route = route := by
  cases render with
  | rejected err =>
      intro e he
      simp only [processRoute, List.mem_singleton] at he
      subst he; rfl
  | resolved html inband =>
      intro e he
      cases minifyOpt with
      | none =>
          cases inband with
          | none => simp [processRoute] at he
          | some er =>
              simp only [processRoute, List.mem_singleton] at he
              subst he; rfl
      | some mfF =>
          cases hmf : mfF html with
          | ok h2 =>
              cases inband with
              | none => simp [processRoute, hmf] at he
              | some er =>
                  simp only [processRoute, hmf, List.mem_singleton] at he
                  subst he; rfl
          | error me =>
              cases inband with
              | none =>
                  simp only [processRoute, hmf, List.nil_append, List.mem_singleton] at he
                  subst he; rfl
              | some er =>
                  simp only [processRoute, hmf, List.cons_append, List.nil_append,
                    List.mem_cons, List.not_mem_nil, or_false] at he
                  rcases he with he | he
                  · subst he; rfl
                  · subst he; rfl

lemma routeResult_route (renderer : String → JSVal → RenderResult)
    (minifyOpt : Option (String → Except JSError String)) (rs : RouteSpec) :
    ∀ e ∈ (routeResult renderer minifyOpt rs).1, e.route = rs.route :=
  processRoute_route (renderer rs.route rs.payload) minifyOpt rs.route

lemma flatMap_filter_route (renderer : String → JSVal → RenderResult)
    (minifyOpt : Option (String → Except JSError String)) :
    ∀ (routes : List RouteSpec) (rs : RouteSpec),
      (routes.map RouteSpec.route).Nodup → rs ∈ routes →
      (routes.flatMap (fun z => (routeResult renderer minifyOpt z).1)).filter
          (fun e => e.route == rs.route) =
        (routeResult renderer minifyOpt rs).1 := by
  intro routes
  induction routes with
  | nil => intro rs _ hmem; cases hmem
  | cons y ys ih =>
      intro rs hnd hmem
      rw [List.flatMap_cons, List.filter_append]
      rcases List.mem_cons.mp hmem with rfl | hmem'
      · have h1 : (routeResult renderer minifyOpt rs).1.filter (fun e => e.route == rs.route) =
            (routeResult renderer minifyOpt rs).1 :=
          List.filter_eq_self.mpr (fun e he => by
            rw [routeResult_route renderer minifyOpt rs e he]; exact beq_self_eq_true _)
        have h2 : (ys.flatMap (fun z => (routeResult renderer minifyOpt z).1)).filter
            (fun e => e.route == rs.route) = [] := by
          rw [List.filter_eq_nil_iff]
          intro e hee
          obtain ⟨z, hz, hez⟩ := List.mem_flatMap.mp hee
          rw [routeResult_route renderer minifyOpt z e hez]
          have hne : z.route ≠ rs.route := by
            intro h
            exact (List.nodup_cons.mp hnd).1 (h ▸ List.mem_map_of_mem RouteSpec.route hz)
          simp [hne]
        rw [h1, h2, List.append_nil]
      · have hy : y.route ≠ rs.route := by
          intro h
          exact (List.nodup_cons.mp hnd).1 (h ▸ List.mem_map_of_mem RouteSpec.route hmem')
        have h1 : (routeResult renderer minifyOpt y).1.filter (fun e => e.route == rs.route) = [] := by
          rw [List.filter_eq_nil_iff]
          intro e hee
          rw [routeResult_route renderer minifyOpt y e hee]
          simp [hy]
        rw [h1, List.nil_append, ih rs (List.nodup_cons.mp hnd).2 hmem']

lemma filterMap_filter_route (renderer : String → JSVal → RenderResult)
    (minifyOpt : Option (String → Except JSError String)) :
    ∀ (routes : List RouteSpec) (rs : RouteSpec),
      (routes.map RouteSpec.route).Nodup → rs ∈ routes →
      (routes.filterMap (fun z => ((routeResult renderer minifyOpt z).2).map (fun html => (z.route, html)))).filter
          (fun w => w.1 == rs.route) =
        (((routeResult renderer minifyOpt rs).2).map (fun html => (rs.route, html))).toList := by
  intro routes
  induction routes with
  | nil => intro rs _ hmem; cases hmem
  | cons y ys ih =>
      intro rs hnd hmem
      rw [List.filterMap_cons]
      rcases List.mem_cons.mp hmem with rfl | hmem'
      · have h2 : (ys.filterMap (fun z => ((routeResult renderer minifyOpt z).2).map (fun html => (z.route, html)))).filter
            (fun w => w.1 == rs.route) = [] := by
          rw [List.filter_eq_nil_iff]
          intro w hw
          obtain ⟨z, hz, hwz⟩ := List.mem_filterMap.mp hw
          obtain ⟨html, _, hwe⟩ := Option.map_eq_some'.mp hwz
          have hne : z.route ≠ rs.route := by
            intro h
            exact (List.nodup_cons.mp hnd).1 (h ▸ List.mem_map_of_mem RouteSpec.route hz)
          rw [← hwe]
          simp [hne]
        cases hres : (routeResult renderer minifyOpt rs).2 with
        | none =>
            simp only [hres, Option.map_none', Option.toList_none]
            exact h2
        | some html =>
            simp only [hres, Option.map_some', Option.toList_some, List.filter_cons,
              beq_self_eq_true, if_true, h2]
      · have hy : y.route ≠ rs.route := by
          intro h
          exact (List.nodup_cons.mp hnd).1 (h ▸ List.mem_map_of_mem RouteSpec.route hmem')
        cases hres : (routeResult renderer minifyOpt y).2 with
        | none =>
            simp only [hres, Option.map_none']
            exact ih rs (List.nodup_cons.mp hnd).2 hmem'
        | some html =>
            have hcond : (((y.route, html) : String × String).1 == rs.route) = false := by
              simp [hy]
            simp only [hres, Option.map_some', List.filter_cons, hcond, Bool.false_eq_true,
              if_false]
            exact ih rs (List.nodup_cons.mp hnd).2 hmem'

lemma processRoute_kind_counts (render : RenderResult)
    (minifyOpt : Option (String → Except JSError String)) (route : String) :
    ((processRoute render minifyOpt route).1.filter
        (fun e => e.type == FailureKind.handled)).length ≤ 1 ∧
    ((processRoute render minifyOpt route).1.filter
        (fun e => e.type == FailureKind.unhandled)).length ≤ 1 := by
  cases render with
  | rejected err => simp [processRoute]
  | resolved html inband =>
      cases minifyOpt with
      | none => cases inband <;> simp [processRoute]
      | some mfF =>
          cases hmf : mfF html with
          | ok h2 => cases inband <;> simp [processRoute, hmf]
          | error me => cases inband <;> simp [processRoute, hmf]

/-- State-machine collapse of `/` runs: `prevSlash` records whether the
previously kept character was a `/`.  Models the duplicate-separator
normalization `path.join` applies (inputs here contain no `.`/`..`
segments). -/
def collapseAux (prevSlash : Bool) : List Char → List Char
  | [] => []
  | c :: rest =>
      if c = '/' then
        if prevSlash then collapseAux true rest
        else c :: collapseAux true rest
      else c :: collapseAux false rest

/-- Collapse every run of `/` in a string to a single `/`. -/
def normSlashes (s : String) : String :=
  ⟨collapseAux false s.data⟩

/-- Concatenation of `path.join`'s arguments with single separators
(`Array.prototype.join(sep)`; the arguments here are never empty). -/
def joinRaw : List String → String
  | [] => ""
  | [s] => s
  | s :: rest => s ++ "/" ++ joinRaw rest

/-- Model of Node's `path.join(...parts)` for separator `/` on dot-free
segments: concatenate with single separators, then collapse duplicate
separators. -/
def joinParts (parts : List String) : String :=
  normSlashes (joinRaw parts)

/-- The path separator `sep` used by the source. -/
def pathSep : String := "/"

/-- The output file path of a route:
`path = join(route, sep, 'index.html'); path = join(distPath, path)`. -/
def outFilePath (distPath route : String) : String :=
  joinParts [distPath, joinParts [route, pathSep, "index.html"]]

/-- No two adjacent `/` occur in the character list. -/
def noDupSlash : List Char → Bool
  | [] => true
  | [_] => true
  | a :: b :: rest => !(a == '/' && b == '/') && noDupSlash (b :: rest)

lemma noDupSlash_tail (c : Char) (l : List Char) (h : noDupSlash (c :: l) = true) :
    noDupSlash l = true := by
  cases l with
  | nil => rfl
  | cons b t =>
      rw [noDupSlash] at h
      exact (Bool.and_eq_true_iff.mp h).2

lemma noDupSlash_head_of_slash (l : List Char) (h : noDupSlash ('/' :: l) = true) :
    l.head? ≠ some '/' := by
  cases l with
  | nil => simp
  | cons b t =>
      rw [noDupSlash] at h
      have := (Bool.and_eq_true_iff.mp h).1
      simp only [List.head?_cons, ne_eq, Option.some.injEq]
      intro hb
      rw [hb] at this
      simp at this

lemma collapseAux_eq_self (l : List Char) :
    ∀ s : Bool, (s = true → l.head? ≠ some '/') → noDupSlash l = true →
      collapseAux s l = l := by
  induction l with
  | nil => intro s _ _; rfl
  | cons c rest ih =>
      intro s hs hnd
      by_cases hc : c = '/'
      · subst hc
        have hfalse : s = false := by
          cases s with
          | false => rfl
          | true => exact absurd rfl (hs rfl)
        subst hfalse
        rw [collapseAux, if_pos rfl]
        simp only [Bool.false_eq_true, if_false]
        rw [ih true (fun _ => noDupSlash_head_of_slash rest hnd) (noDupSlash_tail _ _ hnd)]
      · rw [collapseAux, if_neg hc]
        rw [ih false (by simp) (noDupSlash_tail _ _ hnd)]

lemma collapseAux_squash (a : List Char) :
    ∀ (s : Bool) (b : List Char),
      collapseAux s (a ++ '/' :: '/' :: b) = collapseAux s (a ++ '/' :: b) := by
  induction a with
  | nil =>
      intro s b
      cases s with
      | true =>
          simp only [List.nil_append]
          rw [collapseAux, if_pos rfl, if_pos rfl, collapseAux, if_pos rfl, if_pos rfl]
      | false =>
          simp only [List.nil_append]
          rw [collapseAux, if_pos rfl]
          simp only [Bool.false_eq_true, if_false]
          rw [collapseAux, if_pos rfl, if_pos rfl]
          rw [collapseAux, if_pos rfl]
          simp only [Bool.false_eq_true, if_false]
  | cons c a ih =>
      intro s b
      by_cases hc : c = '/'
      · subst hc
        cases s with
        | true =>
            simp only [List.cons_append]
            rw [collapseAux, if_pos rfl, if_pos rfl, collapseAux, if_pos rfl, if_pos rfl]
            exact ih true b
        | false =>
            simp only [List.cons_append]
            rw [collapseAux, if_pos rfl]
            simp only [Bool.false_eq_true, if_false]
            rw [collapseAux, if_pos rfl]
            simp only [Bool.false_eq_true, if_false]
            rw [ih true b]
      · simp only [List.cons_append]
        rw [collapseAux, if_neg hc, collapseAux, if_neg hc]
        rw [ih false b]

lemma noDupSlash_append (a : List Char) :
    ∀ b : List Char, noDupSlash a = true → noDupSlash b = true →
      ¬(a.getLast? = some '/' ∧ b.head? = some '/') →
      noDupSlash (a ++ b) = true := by
  induction a with
  | nil => intro b _ hb _; simpa using hb
  | cons x a ih =>
      intro b hxa hb hcross
      cases a with
      | nil =>
          cases b with
          | nil => rfl
          | cons y t =>
              simp only [List.cons_append, List.nil_append]
              rw [noDupSlash]
              rw [Bool.and_eq_true]
              refine ⟨?_, hb⟩
              simp only [Bool.not_eq_true', Bool.and_eq_false_iff]
              by_cases hx : x = '/'
              · right
                have : y ≠ '/' := by
                  intro hy
                  exact hcross ⟨by simp [hx], by simp [hy]⟩
                simpa using this
              · left
                simpa using hx
      | cons z a' =>
          simp only [List.cons_append]
          rw [noDupSlash] at hxa
          obtain ⟨h1, h2⟩ := Bool.and_eq_true_iff.mp hxa
          have hlast : (z :: a').getLast? = (x :: z :: a').getLast? :=
            List.getLast?_cons_cons.symm
          have := ih b h2 hb (by rw [hlast]; exact hcross)
          rw [show ((z :: a') ++ b) = z :: (a' ++ b) from rfl] at this
          rw [noDupSlash, Bool.and_eq_true]
          exact ⟨h1, this⟩

lemma slash_data : ("/" : String).data = ['/'] := by decide

lemma joinTwo_eq (d s : String) (t : List Char)
    (hd1 : noDupSlash d.data = true) (hd2 : d.data.getLast? ≠ some '/')
    (hs0 : s.data = '/' :: t) (hs1 : noDupSlash s.data = true) :
    joinParts [d, s] = d ++ s := by
  apply String.ext
  show collapseAux false ((d ++ "/" ++ s).data) = (d ++ s).data
  have hdata : (d ++ "/" ++ s).data = d.data ++ '/' :: '/' :: t := by
    rw [String.data_append, String.data_append, slash_data, hs0]
    simp
  rw [hdata, collapseAux_squash d.data false t]
  have h2 : d.data ++ '/' :: t = d.data ++ s.data := by rw [hs0]
  rw [h2]
  rw [collapseAux_eq_self _ false (by simp)
    (noDupSlash_append d.data s.data hd1 hs1 (fun hp => hd2 hp.1))]
  rw [String.data_append]

lemma inner_join_eq (r : String) (hr1 : noDupSlash r.data = true)
    (hr2 : r.data.getLast? ≠ some '/') :
    joinParts [r, pathSep, "index.html"] = r ++ "/index.html" := by
  apply String.ext
  show collapseAux false ((r ++ "/" ++ (pathSep ++ "/" ++ "index.html")).data) =
    (r ++ "/index.html").data
  have hdata : (r ++ "/" ++ (pathSep ++ "/" ++ "index.html")).data =
      r.data ++ '/' :: '/' :: '/' :: ("index.html".data) := by
    rw [String.data_append, String.data_append, String.data_append, String.data_append,
      slash_data, show pathSep.data = ['/'] from by decide]
    simp
  rw [hdata, collapseAux_squash r.data false ('/' :: "index.html".data),
    collapseAux_squash r.data false ("index.html".data)]
  have hnd : noDupSlash (r.data ++ '/' :: "index.html".data) = true := by
    refine noDupSlash_append r.data ('/' :: "index.html".data) hr1 (by decide) ?_
    intro hp
    exact hr2 hp.1
  rw [collapseAux_eq_self _ false (by simp) hnd]
  rw [String.data_append, show ("/index.html" : String).data = '/' :: ("index.html".data) from by decide]

/-- Modelled work-list computation of `generate`: `generateRoutes` starts
as `[]`; unless `router.mode === 'hash'` the dynamic route configuration is
resolved by `promisifyRoute` (its settled outcome is `dynRes`; a rejection
is logged and re-thrown); then `routes = (mode === 'hash') ? ['/'] :
flatRoutes(...)` — `flatStatic` stands for the already-flattened static
route list, `flatRoutes` being an external utility — and finally
`routes = decorateWithPayloads(routes)`. -/
def computeWorkList (mode : String) (dynRes : Except JSError (List DynItem))
    (flatStatic : List String) : Except JSError (List RouteSpec) :=
  if mode = "hash" then
    .ok (decorateWithPayloads [] ["/"])
  else
    match dynRes with
    | .error e => .error e
    | .ok dyn => .ok (decorateWithPayloads dyn flatStatic)

/-- Work-list computation followed by the batch loop: when dynamic route
resolution fails, the error propagates and no rendering or writing
happens. -/
def generateModel (mode : String) (dynRes : Except JSError (List DynItem))
    (flatStatic : List String) (renderer : String → JSVal → RenderResult)
    (minifyOpt : Option (String → Except JSError String)) :
    Except JSError (List FailureRecord × List (String × String)) :=
  (computeWorkList mode dynRes flatStatic).map (generateRun renderer minifyOpt batchSize)

/-- C1 counterexample: the claim says a path present in both inputs gets
"its payload replaced by the dynamic item's".  For the falsy dynamic
payload `false`, the source stores `route.payload || null`, i.e. `null`,
not `false`, so the merged payload is not the dynamic item's payload. -/
theorem C1_counterexample :
    decorateWithPayloads [.obj "/a" (.vbool false)] ["/a"] = [⟨"/a", .vnull⟩] ∧
    JSVal.vnull ≠ JSVal.vbool false :=
  ⟨by decide, by decide⟩

/-- C1 (amended): for every static path list and dynamic item list, the
merged work list contains exactly one RouteSpec per distinct path; a path
present in both inputs keeps the position of its first insertion
(static-pass order) and a path introduced only by the dynamic pass is
appended after all static entries, in dynamic-item order; the payload of
every entry is the last matching dynamic item's `payload || null` when one
exists (so a truthy dynamic payload wins but a falsy one becomes `null`),
and the static default `null` otherwise. -/
theorem C1_merged_work_list (st : List String) (dyn : List DynItem) :
    ((decorateWithPayloads dyn st).map RouteSpec.route).Nodup ∧
    (decorateWithPayloads dyn st).map RouteSpec.route = dedupFirst (st ++ dyn.map DynItem.path) ∧
    ∀ r ∈ decorateWithPayloads dyn st, r.payload = lastPayload dyn r.route :=
  ⟨decorate_nodup dyn st, decorate_routes dyn st, decorate_payload dyn st⟩

/-- C1 witness: the amended statement evaluated on a concrete merge. -/
theorem C1_merged_work_list_witness :
    (decorateWithPayloads [.obj "/b" (.vnum 7), .str "/c"] ["/a", "/b"]).map RouteSpec.route =
      dedupFirst (["/a", "/b"] ++ [DynItem.obj "/b" (.vnum 7), DynItem.str "/c"].map DynItem.path) ∧
    ∀ r ∈ decorateWithPayloads [.obj "/b" (.vnum 7), .str "/c"] ["/a", "/b"],
      r.payload = lastPayload [DynItem.obj "/b" (.vnum 7), DynItem.str "/c"] r.route :=
  ⟨(C1_merged_work_list ["/a", "/b"] [.obj "/b" (.vnum 7), .str "/c"]).2.1,
   (C1_merged_work_list ["/a", "/b"] [.obj "/b" (.vnum 7), .str "/c"]).2.2⟩

/-- C4 counterexample: the claim says the merged payload equals the dynamic
item's payload "for any payload value, including falsy ones, never the
static default null".  For the falsy payload `0` the source stores
`route.payload || null = null`, which IS the static default. -/
theorem C4_counterexample :
    decorateWithPayloads [.obj "/p" (.vnum 0)] ["/p"] = [⟨"/p", .vnull⟩] ∧
    JSVal.vnull ≠ JSVal.vnum 0 :=
  ⟨by decide, by decide⟩

/-- C4 (amended): for a path present in both inputs, whose last matching
dynamic item carries payload `pay`, the merged RouteSpec's payload is `pay`
when `pay` is truthy and `null` otherwise; in particular a truthy dynamic
payload always overrides the static default. -/
theorem C4_payload_override (st : List String) (dyn : List DynItem) (p : String) (pay : JSVal)
    (hst : p ∈ st)
    (hlast : (dyn.filter (fun it => it.path = p)).getLast? = some (.obj p pay)) :
    ∃ r ∈ decorateWithPayloads dyn st, r.route = p ∧
      r.payload = (if pay.truthy then pay else .vnull) := by
  have hmem : p ∈ (decorateWithPayloads dyn st).map RouteSpec.route := by
    rw [decorate_routes]
    exact (mem_dedupFirstAux [] _ _).mpr ⟨by simp, List.mem_append_left _ hst⟩
  obtain ⟨r, hr, hrp⟩ := List.mem_map.mp hmem
  refine ⟨r, hr, hrp, ?_⟩
  rw [decorate_payload dyn st r hr, hrp, lastPayload, hlast]
  rfl

/-- C4 witness: a truthy dynamic payload overriding the static default. -/
theorem C4_payload_override_witness :
    ∃ r ∈ decorateWithPayloads [.obj "/p" (.vnum 3)] ["/p"], r.route = "/p" ∧
      r.payload = (if (JSVal.vnum 3).truthy then JSVal.vnum 3 else .vnull) :=
  C4_payload_override ["/p"] [.obj "/p" (.vnum 3)] "/p" (.vnum 3) (by decide) (by decide)

/-- C2 counterexample: the claim says a route whose minification throws has
nothing written for it.  In the source the `catch` around `minify` pushes
the record but does not `return`, so the un-minified markup still reaches
`writeFile`: on a one-route run where minify always throws, the route's
file IS written (with the un-minified markup). -/
theorem C2_counterexample :
    (generateRun (fun _ _ => .resolved "<bad" none)
        (some (fun _ => .error ⟨"parse error"⟩)) batchSize [⟨"/z", .vnull⟩]).2 =
      [("/z", "<bad")] := by
  rw [generateRun_writes]
  decide

/-- C2 (amended): for every route whose minification step throws, exactly
one FailureRecord of kind "unhandled" is recorded for it; its error message
contains the un-minified markup (not, in general, the route's path); and —
because the catch block does not stop the route — the un-minified markup is
still written to that route's output file. -/
theorem C2_minify_throw (renderer : String → JSVal → RenderResult)
    (mfF : String → Except JSError String) (k : Nat) (ws : List RouteSpec)
    (x : RouteSpec) (html : String) (inb : Option JSError) (e : JSError)
    (hnd : (ws.map RouteSpec.route).Nodup) (hx : x ∈ ws)
    (hres : renderer x.route x.payload = .resolved html inb)
    (hmf : mfF html = .error e) :
    ((generateRun renderer (some mfF) k ws).1.filter (fun r => r.route == x.route)).filter
        (fun r => r.type == FailureKind.unhandled) =
      [⟨.unhandled, x.route, ⟨minifyFailMsg html⟩⟩] ∧
    (generateRun renderer (some mfF) k ws).2.filter (fun w => w.1 == x.route) =
      [(x.route, html)] ∧
    ∃ pre post, minifyFailMsg html = pre ++ html ++ post := by
  refine ⟨?_, ?_, ?_⟩
  · rw [generateRun_errors, flatMap_filter_route renderer (some mfF) ws x hnd hx]
    unfold routeResult
    rw [hres]
    cases inb with
    | none => simp [processRoute, hmf]
    | some e0 => simp [processRoute, hmf]
  · rw [generateRun_writes, filterMap_filter_route renderer (some mfF) ws x hnd hx]
    unfold routeResult
    rw [hres]
    simp [processRoute, hmf]
  · refine ⟨"HTML minification failed. Make sure the route generates valid HTML. Failed HTML:\n ",
      "", ?_⟩
    rw [String.append_empty]
    rfl

/-- C2 witness: the amended statement on a concrete one-route run. -/
theorem C2_minify_throw_witness :
    ((generateRun (fun _ _ => .resolved "<b" none) (some (fun _ => .error ⟨"mboom"⟩))
        batchSize [⟨"/z", .vnull⟩]).2.filter (fun w => w.1 == "/z")) = [("/z", "<b")] := by
  have h := C2_minify_throw (fun _ _ => .resolved "<b" none) (fun _ => .error ⟨"mboom"⟩)
    batchSize [⟨"/z", .vnull⟩] ⟨"/z", .vnull⟩ "<b" none ⟨"mboom"⟩
    (by decide) (by decide) rfl rfl
  exact h.2.1

/-- C3 counterexample: the claim says at most one FailureRecord is ever
appended per route per run.  When the renderer resolves with an in-band
error AND minification then throws, the source pushes a "handled" record
and then an "unhandled" record for the same route: two records in one
run. -/
theorem C3_counterexample :
    (generateRun (fun _ _ => .resolved "X" (some ⟨"inband"⟩))
        (some (fun _ => .error ⟨"minify boom"⟩)) batchSize [⟨"/z", .vnull⟩]).1 =
      [⟨.handled, "/z", ⟨"inband"⟩⟩, ⟨.unhandled, "/z", ⟨minifyFailMsg "X"⟩⟩] := by
  rw [generateRun_errors]
  decide

/-- C3 (amended): per route and per run, at most one render-level
("handled" or render-"unhandled") record and at most one minification
"unhandled" record are appended — hence at most two records per route,
rather than at most one; after an unhandled render failure nothing further
is recorded for the route. -/
theorem C3_at_most_two_records (renderer : String → JSVal → RenderResult)
    (minifyOpt : Option (String → Except JSError String)) (k : Nat)
    (ws : List RouteSpec) (x : RouteSpec)
    (hnd : (ws.map RouteSpec.route).Nodup) (hx : x ∈ ws) :
    (((generateRun renderer minifyOpt k ws).1.filter (fun e => e.route == x.route)).filter
        (fun e => e.type == FailureKind.handled)).length ≤ 1 ∧
    (((generateRun renderer minifyOpt k ws).1.filter (fun e => e.route == x.route)).filter
        (fun e => e.type == FailureKind.unhandled)).length ≤ 1 := by
  rw [generateRun_errors, flatMap_filter_route renderer minifyOpt ws x hnd hx]
  exact processRoute_kind_counts (renderer x.route x.payload) minifyOpt x.route

/-- C3 witness: the amended bound on a concrete run with both a handled and
an unhandled record for the same route. -/
theorem C3_at_most_two_records_witness :
    (((generateRun (fun _ _ => .resolved "X" (some ⟨"inband"⟩))
        (some (fun _ => .error ⟨"minify boom"⟩)) batchSize [⟨"/z", .vnull⟩]).1.filter
          (fun e => e.route == "/z")).filter
        (fun e => e.type == FailureKind.handled)).length ≤ 1 :=
  (C3_at_most_two_records (fun _ _ => .resolved "X" (some ⟨"inband"⟩))
    (some (fun _ => .error ⟨"minify boom"⟩)) batchSize [⟨"/z", .vnull⟩] ⟨"/z", .vnull⟩
    (by decide) (by decide)).1

/-- C5: for every route whose render call rejects, exactly one
FailureRecord — of kind "unhandled", carrying the thrown error — is
recorded for that route, no file is written for it, and every other route
of the run is still processed and written exactly as its own pipeline
result dictates. -/
theorem C5_render_throw (renderer : String → JSVal → RenderResult)
    (minifyOpt : Option (String → Except JSError String)) (k : Nat)
    (ws : List RouteSpec) (x : RouteSpec) (err : JSError)
    (hnd : (ws.map RouteSpec.route).Nodup) (hx : x ∈ ws)
    (hthrow : renderer x.route x.payload = .rejected err) :
    (generateRun renderer minifyOpt k ws).1.filter (fun e => e.route == x.route) =
      [⟨.unhandled, x.route, err⟩] ∧
    (generateRun renderer minifyOpt k ws).2.filter (fun w => w.1 == x.route) = [] ∧
    ∀ y ∈ ws, y.route ≠ x.route →
      (generateRun renderer minifyOpt k ws).2.filter (fun w => w.1 == y.route) =
        (((routeResult renderer minifyOpt y).2).map (fun html => (y.route, html))).toList := by
  refine ⟨?_, ?_, ?_⟩
  · rw [generateRun_errors, flatMap_filter_route renderer minifyOpt ws x hnd hx]
    unfold routeResult
    rw [hthrow]
    rfl
  · rw [generateRun_writes, filterMap_filter_route renderer minifyOpt ws x hnd hx]
    unfold routeResult
    rw [hthrow]
    rfl
  · intro y hy _
    rw [generateRun_writes, filterMap_filter_route renderer minifyOpt ws y hnd hy]

/-- C5 witness: a two-route run where `/x` rejects and `/ok` is still
written. -/
theorem C5_render_throw_witness :
    (generateRun
        (fun route _ => if route == "/x" then .rejected ⟨"boom"⟩ else .resolved "fine" none)
        none batchSize [⟨"/x", .vnull⟩, ⟨"/ok", .vnull⟩]).1.filter
      (fun e => e.route == "/x") = [⟨.unhandled, "/x", ⟨"boom"⟩⟩] ∧
    (generateRun
        (fun route _ => if route == "/x" then .rejected ⟨"boom"⟩ else .resolved "fine" none)
        none batchSize [⟨"/x", .vnull⟩, ⟨"/ok", .vnull⟩]).2.filter
      (fun w => w.1 == "/x") = [] := by
  have h := C5_render_throw
    (fun route _ => if route == "/x" then .rejected ⟨"boom"⟩ else .resolved "fine" none)
    none batchSize [⟨"/x", .vnull⟩, ⟨"/ok", .vnull⟩] ⟨"/x", .vnull⟩ ⟨"boom"⟩
    (by decide) (by decide) rfl
  exact ⟨h.1, h.2.1⟩

/-- C6: for every route whose renderer resolves but reports an in-band
error, exactly one FailureRecord of kind "handled" is recorded for the
route, and the returned markup is still carried through the remaining
steps and written: a file is always written for the route, and when no
minification is configured its content is exactly the returned markup. -/
theorem C6_inband_error (renderer : String → JSVal → RenderResult)
    (minifyOpt : Option (String → Except JSError String)) (k : Nat)
    (ws : List RouteSpec) (x : RouteSpec) (html : String) (e : JSError)
    (hnd : (ws.map RouteSpec.route).Nodup) (hx : x ∈ ws)
    (hres : renderer x.route x.payload = .resolved html (some e)) :
    ((generateRun renderer minifyOpt k ws).1.filter (fun r => r.route == x.route)).filter
        (fun r => r.type == FailureKind.handled) = [⟨.handled, x.route, e⟩] ∧
    (∃ out, (generateRun renderer minifyOpt k ws).2.filter (fun w => w.1 == x.route) =
      [(x.route, out)]) ∧
    (minifyOpt = none →
      (generateRun renderer minifyOpt k ws).2.filter (fun w => w.1 == x.route) =
        [(x.route, html)]) := by
  refine ⟨?_, ?_, ?_⟩
  · rw [generateRun_errors, flatMap_filter_route renderer minifyOpt ws x hnd hx]
    unfold routeResult
    rw [hres]
    cases minifyOpt with
    | none => simp [processRoute]
    | some mfF =>
        cases hmf : mfF html with
        | ok h2 => simp [processRoute, hmf]
        | error me => simp [processRoute, hmf]
  · rw [generateRun_writes, filterMap_filter_route renderer minifyOpt ws x hnd hx]
    unfold routeResult
    rw [hres]
    cases minifyOpt with
    | none => exact ⟨html, rfl⟩
    | some mfF =>
        cases hmf : mfF html with
        | ok h2 =>
            refine ⟨h2, ?_⟩
            simp [processRoute, hmf]
        | error me =>
            refine ⟨html, ?_⟩
            simp [processRoute, hmf]
  · intro hmo
    subst hmo
    rw [generateRun_writes, filterMap_filter_route renderer none ws x hnd hx]
    unfold routeResult
    rw [hres]
    rfl

/-- C6 witness: a one-route run with an in-band error and no minifier. -/
theorem C6_inband_error_witness :
    ((generateRun (fun _ _ => .resolved "partial" (some ⟨"oops"⟩)) none batchSize
        [⟨"/y", .vnull⟩]).1.filter (fun r => r.route == "/y")).filter
      (fun r => r.type == FailureKind.handled) = [⟨.handled, "/y", ⟨"oops"⟩⟩] ∧
    (generateRun (fun _ _ => .resolved "partial" (some ⟨"oops"⟩)) none batchSize
        [⟨"/y", .vnull⟩]).2.filter (fun w => w.1 == "/y") = [("/y", "partial")] := by
  have h := C6_inband_error (fun _ _ => .resolved "partial" (some ⟨"oops"⟩)) none batchSize
    [⟨"/y", .vnull⟩] ⟨"/y", .vnull⟩ "partial" ⟨"oops"⟩ (by decide) (by decide) rfl
  exact ⟨h.1, h.2.2 rfl⟩

/-- C7: for every route list of length `n` and batch size `k ≥ 1`, the
batch loop produces `⌈n∕k⌉` sequential batches whose concatenation, in
order, is exactly the route list (so every route of the work list is
attempted exactly once per run), and the run's error records are exactly
the routes' own pipeline records in list order. -/
theorem C7_batching (k : Nat) (routes : List RouteSpec)
    (renderer : String → JSVal → RenderResult)
    (minifyOpt : Option (String → Except JSError String)) (hk : 0 < k) :
    (batches k routes).length = (routes.length + k - 1) / k ∧
    (batches k routes).flatten = routes ∧
    (generateRun renderer minifyOpt k routes).1 =
      routes.flatMap (fun rs => (routeResult renderer minifyOpt rs).1) :=
  ⟨batches_length k routes hk, batches_flatten k routes,
   generateRun_errors renderer minifyOpt k routes⟩

/-- C7 witness: five routes in batches of two make three batches whose
concatenation is the original list. -/
theorem C7_batching_witness :
    (batches 2 [(⟨"/a", .vnull⟩ : RouteSpec), ⟨"/b", .vnull⟩, ⟨"/c", .vnull⟩,
      ⟨"/d", .vnull⟩, ⟨"/e", .vnull⟩]).length =
      (([(⟨"/a", .vnull⟩ : RouteSpec), ⟨"/b", .vnull⟩, ⟨"/c", .vnull⟩,
        ⟨"/d", .vnull⟩, ⟨"/e", .vnull⟩].length) + 2 - 1) / 2 ∧
    (batches 2 [(⟨"/a", .vnull⟩ : RouteSpec), ⟨"/b", .vnull⟩, ⟨"/c", .vnull⟩,
      ⟨"/d", .vnull⟩, ⟨"/e", .vnull⟩]).flatten =
      [(⟨"/a", .vnull⟩ : RouteSpec), ⟨"/b", .vnull⟩, ⟨"/c", .vnull⟩,
        ⟨"/d", .vnull⟩, ⟨"/e", .vnull⟩] := by
  have h := C7_batching 2
    [(⟨"/a", .vnull⟩ : RouteSpec), ⟨"/b", .vnull⟩, ⟨"/c", .vnull⟩, ⟨"/d", .vnull⟩, ⟨"/e", .vnull⟩]
    (fun _ _ => .resolved "" none) none (by decide)
  exact ⟨h.1, h.2.1⟩

/-- C8: the writer computes `join(distPath, join(route, sep, 'index.html'))`,
which equals the output root joined with the route and `index.html`:
route `/` maps to `<outputRoot>/index.html`, route `/about` maps to
`<outputRoot>/about/index.html`, and in general a clean `/`-prefixed route
`r` maps to `<outputRoot>r/index.html` (hypotheses: the output root and the
route contain no duplicate `/` runs and do not end in `/`, and the route
starts with `/`). -/
theorem C8_output_path (d r : String)
    (hd1 : noDupSlash d.data = true) (hd2 : d.data.getLast? ≠ some '/')
    (hr0 : r.data.head? = some '/') (hr1 : noDupSlash r.data = true)
    (hr2 : r.data.getLast? ≠ some '/') :
    outFilePath d "/" = d ++ "/index.html" ∧
    outFilePath d "/about" = d ++ "/about/index.html" ∧
    outFilePath d r = d ++ r ++ "/index.html" := by
  have hgen : ∀ (r' : String) (t' : List Char), r'.data = '/' :: t' →
      noDupSlash r'.data = true → r'.data.getLast? ≠ some '/' →
      outFilePath d r' = d ++ r' ++ "/index.html" := by
    intro r' t' hr0' hr1' hr2'
    have hinner := inner_join_eq r' hr1' hr2'
    show joinParts [d, joinParts [r', pathSep, "index.html"]] = d ++ r' ++ "/index.html"
    rw [hinner]
    have hsdata : (r' ++ "/index.html").data = '/' :: (t' ++ ("/index.html" : String).data) := by
      rw [String.data_append, hr0']
      rfl
    have hs1 : noDupSlash ((r' ++ "/index.html").data) = true := by
      rw [String.data_append]
      exact noDupSlash_append r'.data _ hr1' (by decide) (fun hp => hr2' hp.1)
    rw [joinTwo_eq d (r' ++ "/index.html") (t' ++ ("/index.html" : String).data) hd1 hd2 hsdata hs1,
      ← String.append_assoc]
  refine ⟨?_, ?_, ?_⟩
  · show joinParts [d, joinParts ["/", pathSep, "index.html"]] = d ++ "/index.html"
    rw [show joinParts ["/", pathSep, "index.html"] = "/index.html" from by decide]
    exact joinTwo_eq d "/index.html" ("index.html".data) hd1 hd2 (by decide) (by decide)
  · rw [hgen "/about" ("about".data) (by decide) (by decide) (by decide),
      String.append_assoc, show ("/about" : String) ++ "/index.html" = "/about/index.html" from by decide]
  · cases hcase : r.data with
    | nil => rw [hcase] at hr0; simp at hr0
    | cons c t' =>
        have hc : c = '/' := by
          rw [hcase] at hr0
          simpa using hr0
        subst hc
        exact hgen r t' hcase hr1 hr2

/-- C8 witness: the path rule evaluated at output root `dist` and route
`/about`. -/
theorem C8_output_path_witness :
    outFilePath "dist" "/" = "dist" ++ "/index.html" ∧
    outFilePath "dist" "/about" = "dist" ++ "/about/index.html" := by
  have h := C8_output_path "dist" "/about" (by decide) (by decide) (by decide) (by decide)
    (by decide)
  exact ⟨h.1, h.2.1⟩

/-- C9: in hash routing mode the work list is exactly the single route `/`
with payload `null`, whatever the dynamic route configuration resolves to
(it is never consulted); otherwise a failed dynamic-route resolution is
re-thrown — the work-list computation and therefore the whole model return
that error, so no rendering or writing happens — and a successful
resolution yields the Route Merger applied to the flattened static routes
and the resolved dynamic items. -/
theorem C9_work_list (mode : String) (dynRes : Except JSError (List DynItem))
    (flatStatic : List String) (renderer : String → JSVal → RenderResult)
    (minifyOpt : Option (String → Except JSError String)) :
    computeWorkList "hash" dynRes flatStatic = .ok [⟨"/", .vnull⟩] ∧
    (mode ≠ "hash" → ∀ e, dynRes = .error e →
      computeWorkList mode dynRes flatStatic = .error e ∧
      generateModel mode dynRes flatStatic renderer minifyOpt = .error e) ∧
    (mode ≠ "hash" → ∀ dyn, dynRes = .ok dyn →
      computeWorkList mode dynRes flatStatic = .ok (decorateWithPayloads dyn flatStatic)) := by
  refine ⟨?_, ?_, ?_⟩
  · unfold computeWorkList
    rw [if_pos rfl, show decorateWithPayloads [] ["/"] = [⟨"/", .vnull⟩] from by decide]
  · intro hmode e hE
    subst hE
    constructor
    · unfold computeWorkList
      rw [if_neg hmode]
    · unfold generateModel computeWorkList
      rw [if_neg hmode]
      rfl
  · intro hmode dyn hOk
    subst hOk
    unfold computeWorkList
    rw [if_neg hmode]

/-- C9 witness: hash mode ignores a failing dynamic resolution; history
mode re-throws it before any rendering. -/
theorem C9_work_list_witness :
    computeWorkList "hash" (.error ⟨"resolver boom"⟩) ["/a"] = .ok [⟨"/", .vnull⟩] ∧
    generateModel "history" (.error ⟨"resolver boom"⟩) ["/a"]
      (fun _ _ => .resolved "" none) none = .error ⟨"resolver boom"⟩ := by
  have h := C9_work_list "history" (.error ⟨"resolver boom"⟩) ["/a"]
    (fun _ _ => .resolved "" none) none
  exact ⟨h.1, (h.2.1 (by decide) ⟨"resolver boom"⟩ rfl).2⟩
